import Mathlib

/-!
Verification of the ScraplingUI application (`src/app.py`).

The application is embedded shallowly: Python strings are Lean `String`s
(sequences of code points), Python dicts with string keys that the app
builds are ordered association lists, exceptions raised by the external
fetching/parsing library are modelled with `Except`, and the Streamlit
session state is an explicit record threaded through the action handler.
-/

namespace ScraplingUI

/-! ## Python string primitives

`pyStrip` models Python `str.strip()` (drop leading and trailing
whitespace), `pyTake n` models the slice `s[:n]`, and `isSubstr pat s`
models the Python expression `pat in s`.  All three work on the list of
code points, which is how Python indexes strings. -/

def stripList (l : List Char) : List Char :=
  ((l.dropWhile Char.isWhitespace).reverse.dropWhile Char.isWhitespace).reverse

def pyStrip (s : String) : String :=
  String.mk (stripList s.data)

def pyTake (n : Nat) (s : String) : String :=
  String.mk (s.data.take n)

def isSubstr (pat s : String) : Bool :=
  decide (pat.data <:+: s.data)

/-! ## Elements and result records

A matched element of the external parsing library exposes `.text` and
`.html` accessors when present (`hasattr` in the source) and can always
be stringified with `str(...)`. -/

structure Element where
  text? : Option String
  html? : Option String
  str : String

/-- One flat result record: an ordered dict with string keys and values. -/
abbrev Record := List (String × String)

/-- `el.text if hasattr(el, "text") else str(el)` (`app.py` line 83). -/
def textOrStr (el : Element) : String :=
  match el.text? with
  | some t => t
  | none => el.str

/-- `app.py` lines 81–96, body of the `for el in elements` loop: the record
(or nothing, in the `::text` branch) contributed by one element. -/
def normElem (selector : String) (el : Element) : Option Record :=
  if isSubstr "::text" selector then
    let text := textOrStr el
    if text ≠ "" ∧ pyStrip text ≠ "" then some [("text", pyStrip text)] else none
  else if isSubstr "::attr(" selector then
    some [("value", el.str)]
  else
    let text := el.text?.getD ""
    let html := el.html?.getD el.str
    some [("text", if text ≠ "" then pyStrip text else ""),
          ("html", pyTake 200 html)]

/-- `app.py` lines 80–96: the `data` list accumulated over all elements. -/
def normalize (selector : String) (elements : List Element) : List Record :=
  elements.filterMap (normElem selector)

/-! ## Job history (`add_to_history`, `app.py` lines 121–133) -/

structure HistoryEntry where
  url : String
  fetcher : String
  selector : String
  count : Nat
  status : String
  time : String
deriving DecidableEq

/-- `s[:n] + "..." if len(s) > n else s` (used with `n = 50` and `n = 30`). -/
def truncTo (n : Nat) (s : String) : String :=
  if n < s.length then pyTake n s ++ "..." else s

/-- `app.py` lines 121–133: build the summary entry, insert it at index 0,
and keep only the first 20 entries.  The wall-clock string is a parameter. -/
def add_to_history (history : List HistoryEntry) (url fetcher selector : String)
    (count : Nat) (status time : String) : List HistoryEntry :=
  (HistoryEntry.mk (truncTo 50 url) fetcher (truncTo 30 selector) count status time
    :: history).take 20

/-! ## The scrape dispatch (`scrape`, `app.py` lines 46–101)

The external library is a collaborator: each fetch entry point either
returns a page or raises, and each selector query on a page either
returns the matched elements or raises.  `Except.error msg` stands for a
raised exception whose `str(exc)` is `msg`. -/

structure Page where
  css : String → Except String (List Element)
  xpath : String → Except String (List Element)

structure Env where
  fetcherGet : String → Nat → Except String Page
  stealthyFetch : String → Bool → Bool → Except String Page
  dynamicFetch : String → Bool → Bool → Except String Page

/-- The per-strategy options dict; absent keys model keys never stored. -/
structure Options where
  timeout : Option Nat
  headless : Option Bool
  solve_cloudflare : Option Bool
  network_idle : Option Bool

def Options.empty : Options := ⟨none, none, none, none⟩

structure ScrapeResult where
  success : Bool
  data : List Record
  error : String
deriving DecidableEq

def knownFetcher (fetcher_type : String) : Bool :=
  fetcher_type = "Fetcher" || fetcher_type = "StealthyFetcher" ||
    fetcher_type = "DynamicFetcher"

/-- `app.py` lines 53–73: dispatch on `fetcher_type`.  The final `else`
branch (line 73) returns early with `Unknown fetcher type: ...`; since the
caller turns any error into the same `(False, [], msg)` triple, that early
return is modelled as an error carrying exactly the message of line 73. -/
def fetchStep (env : Env) (url fetcher_type : String) (options : Options) :
    Except String Page :=
  if fetcher_type = "Fetcher" then
    env.fetcherGet url (options.timeout.getD 30)
  else if fetcher_type = "StealthyFetcher" then
    env.stealthyFetch url (options.headless.getD true)
      (options.solve_cloudflare.getD false)
  else if fetcher_type = "DynamicFetcher" then
    env.dynamicFetch url (options.headless.getD true)
      (options.network_idle.getD true)
  else
    Except.error ("Unknown fetcher type: " ++ fetcher_type)

/-- `app.py` lines 75–78: run the CSS or XPath query. -/
def queryStep (page : Page) (selector selector_type : String) :
    Except String (List Element) :=
  if selector_type = "CSS" then page.css selector else page.xpath selector

/-- `app.py` lines 46–101, the whole `scrape` function: fetch, query,
normalise; any raised exception becomes `(False, [], str(exc))`. -/
def scrape (env : Env) (url fetcher_type selector selector_type : String)
    (options : Options) : ScrapeResult :=
  match fetchStep env url fetcher_type options with
  | Except.error msg => ⟨false, [], msg⟩
  | Except.ok page =>
    match queryStep page selector selector_type with
    | Except.error msg => ⟨false, [], msg⟩
    | Except.ok elements => ⟨true, normalize selector elements, ""⟩

/-! ## The button handler (`app.py` lines 193–214) -/

structure SessionState where
  results : Option (List Record)
  history : List HistoryEntry

/-- What the page displays after pressing the Scrape button. -/
inductive Banner where
  | inputError (msg : String)
  | success (count : Nat)
  | failure (msg : String)
deriving DecidableEq

/-- `app.py` lines 193–214: validate the form, run `scrape`, and update the
session state and the banner accordingly. -/
def runScrapeAction (env : Env) (st : SessionState)
    (url fetcher_type selector selector_type : String) (options : Options)
    (time : String) : SessionState × Banner :=
  if url = "" then (st, Banner.inputError "Please enter a URL")
  else if selector = "" then (st, Banner.inputError "Please enter a selector")
  else
    let r := scrape env url fetcher_type selector selector_type options
    if r.success then
      (⟨some r.data,
        add_to_history st.history url fetcher_type selector r.data.length "✅" time⟩,
       Banner.success r.data.length)
    else
      (⟨st.results,
        add_to_history st.history url fetcher_type selector 0 "❌" time⟩,
       Banner.failure r.error)

/-! ## Facts about the string primitives -/

theorem dropWhile_all_eq_nil {α : Type} {p : α → Bool} (l : List α)
    (h : (l.dropWhile p).all p = true) : l.dropWhile p = [] := by
  induction l with
  | nil => rfl
  | cons a t ih =>
    by_cases hp : p a = true
    · rw [List.dropWhile_cons, if_pos hp] at h ⊢
      exact ih h
    · rw [List.dropWhile_cons, if_neg hp, List.all_cons] at h
      simp [hp] at h

theorem stripList_eq_nil_of_all_ws (l : List Char)
    (h : (stripList l).all Char.isWhitespace = true) : stripList l = [] := by
  unfold stripList at h ⊢
  rw [List.all_reverse] at h
  rw [dropWhile_all_eq_nil _ h]
  rfl

theorem pyStrip_empty : pyStrip "" = "" := rfl

theorem pyStrip_ne_empty {t : String} (h : pyStrip t ≠ "") : t ≠ "" := by
  intro he
  exact h (he ▸ pyStrip_empty)

theorem pyStrip_not_all_ws {t : String} (h : pyStrip t ≠ "") :
    (pyStrip t).data.all Char.isWhitespace = false := by
  cases hb : (pyStrip t).data.all Char.isWhitespace with
  | false => rfl
  | true =>
    exfalso
    apply h
    have : stripList t.data = [] := stripList_eq_nil_of_all_ws _ hb
    show String.mk (stripList t.data) = ""
    rw [this]

theorem pyTake_length_le (n : Nat) (s : String) : (pyTake n s).length ≤ n := by
  show (s.data.take n).length ≤ n
  rw [List.length_take]
  exact min_le_left _ _

theorem truncTo_length_le (n : Nat) (s : String) : (truncTo n s).length ≤ n + 3 := by
  unfold truncTo
  by_cases hl : n < s.length
  · rw [if_pos hl, String.length_append]
    have := pyTake_length_le n s
    have h3 : ("..." : String).length = 3 := rfl
    omega
  · rw [if_neg hl]
    omega

/-! ## The three normalization branches -/

theorem normElem_of_text {selector : String} (h : isSubstr "::text" selector = true)
    (el : Element) :
    normElem selector el =
      if pyStrip (textOrStr el) ≠ "" then some [("text", pyStrip (textOrStr el))]
      else none := by
  unfold normElem
  rw [if_pos h]
  by_cases hs : pyStrip (textOrStr el) ≠ ""
  · rw [if_pos hs, if_pos ⟨pyStrip_ne_empty hs, hs⟩]
  · rw [if_neg hs, if_neg]
    intro hcontra
    exact hs hcontra.2

/-- C1: with a selector containing the substring `::text`, normalization keeps
exactly the elements whose (text-or-stringified) content strips to a non-empty
string, emitting for each the one-key record `text` bound to the stripped
content; consequently no emitted `text` value is empty or whitespace-only. -/
theorem text_selector_records (selector : String) (elements : List Element)
    (h : isSubstr "::text" selector = true) :
    normalize selector elements =
      (elements.filter fun el => decide (pyStrip (textOrStr el) ≠ "")).map
        (fun el => [("text", pyStrip (textOrStr el))]) ∧
    ∀ r ∈ normalize selector elements, ∃ v : String,
      r = [("text", v)] ∧ v ≠ "" ∧ v.data.all Char.isWhitespace = false := by
  have hmain : normalize selector elements =
      (elements.filter fun el => decide (pyStrip (textOrStr el) ≠ "")).map
        (fun el => [("text", pyStrip (textOrStr el))]) := by
    induction elements with
    | nil => rfl
    | cons el els ih =>
      simp only [normalize] at ih ⊢
      rw [List.filterMap_cons, List.filter_cons]
      by_cases hs : pyStrip (textOrStr el) ≠ ""
      · rw [normElem_of_text h, if_pos hs, if_pos (by simpa using hs), List.map_cons, ih]
      · rw [normElem_of_text h, if_neg hs, if_neg (by simpa using hs), ih]
  refine ⟨hmain, ?_⟩
  intro r hr
  rw [hmain] at hr
  obtain ⟨el, hel, rfl⟩ := List.mem_map.mp hr
  have hne : pyStrip (textOrStr el) ≠ "" := by
    have := List.of_mem_filter hel
    simpa using this
  exact ⟨pyStrip (textOrStr el), rfl, hne, pyStrip_not_all_ws hne⟩

/-- C2: with a selector containing `::attr(` but not `::text`, normalization
emits exactly one record per element, the one-key record `value` bound to the
stringified element. -/
theorem attr_selector_records (selector : String) (elements : List Element)
    (ha : isSubstr "::attr(" selector = true)
    (ht : isSubstr "::text" selector = false) :
    normalize selector elements = elements.map (fun el => [("value", el.str)]) := by
  induction elements with
  | nil => rfl
  | cons el els ih =>
    simp only [normalize] at ih ⊢
    rw [List.filterMap_cons, List.map_cons, ← ih]
    have : normElem selector el = some [("value", el.str)] := by
      unfold normElem
      rw [if_neg (by simp [ht]), if_pos ha]
    rw [this]

/-- C3: with a selector containing neither `::text` nor `::attr(`,
normalization emits exactly one two-key record per element: `text` bound to
the stripped text (empty when the element has no text) and `html` bound to
the first 200 characters of the serialized html, so every `html` value has
length at most 200. -/
theorem plain_selector_records (selector : String) (elements : List Element)
    (ht : isSubstr "::text" selector = false)
    (ha : isSubstr "::attr(" selector = false) :
    normalize selector elements = elements.map (fun el =>
      [("text", if el.text?.getD "" ≠ "" then pyStrip (el.text?.getD "") else ""),
       ("html", pyTake 200 (el.html?.getD el.str))]) ∧
    ∀ r ∈ normalize selector elements, ∃ t h : String,
      r = [("text", t), ("html", h)] ∧ h.length ≤ 200 := by
  have hone : ∀ el : Element, normElem selector el =
      some [("text", if el.text?.getD "" ≠ "" then pyStrip (el.text?.getD "") else ""),
            ("html", pyTake 200 (el.html?.getD el.str))] := by
    intro el
    unfold normElem
    rw [if_neg (by simp [ht]), if_neg (by simp [ha])]
  have hmain : normalize selector elements = elements.map (fun el =>
      [("text", if el.text?.getD "" ≠ "" then pyStrip (el.text?.getD "") else ""),
       ("html", pyTake 200 (el.html?.getD el.str))]) := by
    induction elements with
    | nil => rfl
    | cons el els ih =>
      simp only [normalize] at ih ⊢
      rw [List.filterMap_cons, List.map_cons, ← ih, hone el]
  refine ⟨hmain, ?_⟩
  intro r hr
  rw [hmain] at hr
  obtain ⟨el, _, rfl⟩ := List.mem_map.mp hr
  exact ⟨_, _, rfl, pyTake_length_le 200 _⟩

/-! ## History and handler properties -/

/-- C4: adding a run summary prepends the new entry at the front and then
truncates the list to its first 20 entries; the history length never
exceeds 20, and inserting into a full history of 20 evicts exactly the
oldest (last) entry, leaving the 20 most recent in most-recent-first order. -/
theorem history_capped (history : List HistoryEntry) (url fetcher selector : String)
    (count : Nat) (status time : String) (hlen : history.length ≤ 20) :
    add_to_history history url fetcher selector count status time =
      HistoryEntry.mk (truncTo 50 url) fetcher (truncTo 30 selector) count status time
        :: history.take 19 ∧
    (add_to_history history url fetcher selector count status time).length ≤ 20 ∧
    (history.length = 20 →
      add_to_history history url fetcher selector count status time =
        HistoryEntry.mk (truncTo 50 url) fetcher (truncTo 30 selector) count status time
          :: history.dropLast) := by
  have hcons : add_to_history history url fetcher selector count status time =
      HistoryEntry.mk (truncTo 50 url) fetcher (truncTo 30 selector) count status time
        :: history.take 19 := by
    unfold add_to_history
    rfl
  refine ⟨hcons, ?_, ?_⟩
  · rw [hcons, List.length_cons, List.length_take]
    omega
  · intro h20
    rw [hcons, List.dropLast_eq_take, h20]

/-- C10: every entry kept by `add_to_history` stores a url of length at most
53 and a selector of length at most 33, and the newly inserted entry carries
exactly the first 50 characters of the url followed by an ellipsis when the
url exceeds 50 characters (otherwise the url unchanged), and likewise the
selector with bounds 30 and 33. -/
theorem history_entry_truncation (history : List HistoryEntry)
    (url fetcher selector : String) (count : Nat) (status time : String)
    (hh : ∀ e ∈ history, e.url.length ≤ 53 ∧ e.selector.length ≤ 33) :
    (add_to_history history url fetcher selector count status time).head? =
      some (HistoryEntry.mk (truncTo 50 url) fetcher (truncTo 30 selector)
        count status time) ∧
    truncTo 50 url = (if 50 < url.length then pyTake 50 url ++ "..." else url) ∧
    truncTo 30 selector =
      (if 30 < selector.length then pyTake 30 selector ++ "..." else selector) ∧
    ∀ e ∈ add_to_history history url fetcher selector count status time,
      e.url.length ≤ 53 ∧ e.selector.length ≤ 33 := by
  refine ⟨rfl, rfl, rfl, ?_⟩
  intro e he
  have hsub : e ∈ HistoryEntry.mk (truncTo 50 url) fetcher (truncTo 30 selector)
      count status time :: history := List.take_subset 20 _ he
  rcases List.mem_cons.mp hsub with heq | hmem
  · subst heq
    exact ⟨truncTo_length_le 50 url, truncTo_length_le 30 selector⟩
  · exact hh e hmem

/-- C5: when the fetch or the extraction step raises an exception, `scrape`
returns success `false`, an empty data list, and the exception message; the
handler leaves the stored results untouched (so an empty result state stays
empty), surfaces the message verbatim, and logs a failed history entry with
count 0 and the failure glyph. -/
theorem scrape_failure_behavior (env : Env) (st : SessionState)
    (url fetcher_type selector selector_type : String) (options : Options)
    (time msg : String) (hurl : url ≠ "") (hsel : selector ≠ "")
    (hknown : knownFetcher fetcher_type = true)
    (hraise : fetchStep env url fetcher_type options = Except.error msg ∨
      ∃ page, fetchStep env url fetcher_type options = Except.ok page ∧
        queryStep page selector selector_type = Except.error msg) :
    scrape env url fetcher_type selector selector_type options =
      ScrapeResult.mk false [] msg ∧
    (runScrapeAction env st url fetcher_type selector selector_type options time).1.results
      = st.results ∧
    (runScrapeAction env st url fetcher_type selector selector_type options time).1.history
      = add_to_history st.history url fetcher_type selector 0 "❌" time ∧
    (runScrapeAction env st url fetcher_type selector selector_type options time).2
      = Banner.failure msg := by
  have _ := hknown
  have hs : scrape env url fetcher_type selector selector_type options =
      ScrapeResult.mk false [] msg := by
    rcases hraise with herr | ⟨page, hok, herr⟩
    · unfold scrape
      rw [herr]
    · unfold scrape
      rw [hok]
      simp [herr]
  refine ⟨hs, ?_, ?_, ?_⟩ <;>
    simp [runScrapeAction, hurl, hsel, hs]

/-- C8: on a successful scrape the stored result set is replaced wholesale
by the new record list — the previous results never contribute — and a
success history entry is added whose count equals the new list's length. -/
theorem success_replaces_results (env : Env) (st : SessionState)
    (url fetcher_type selector selector_type : String) (options : Options)
    (time : String) (data : List Record)
    (hurl : url ≠ "") (hsel : selector ≠ "")
    (hsucc : scrape env url fetcher_type selector selector_type options =
      ScrapeResult.mk true data "") :
    (runScrapeAction env st url fetcher_type selector selector_type options time).1.results
      = some data ∧
    (∀ prev : Option (List Record),
      runScrapeAction env (SessionState.mk prev st.history) url fetcher_type selector
          selector_type options time =
        runScrapeAction env st url fetcher_type selector selector_type options time) ∧
    (runScrapeAction env st url fetcher_type selector selector_type options time).1.history
      = add_to_history st.history url fetcher_type selector data.length "✅" time ∧
    ((runScrapeAction env st url fetcher_type selector selector_type options time).1.history).head?
      = some (HistoryEntry.mk (truncTo 50 url) fetcher_type (truncTo 30 selector)
          data.length "✅" time) ∧
    (runScrapeAction env st url fetcher_type selector selector_type options time).2
      = Banner.success data.length := by
  refine ⟨?_, ?_, ?_, ?_, ?_⟩ <;>
    simp [runScrapeAction, hurl, hsel, hsucc, add_to_history]

/-- C9: an unknown fetcher type makes `scrape` fail with exactly the message
`Unknown fetcher type: ` followed by the given type, and the result is
independent of the environment and of the selector arguments, so no fetch
entry point and no selector query is ever consulted. -/
theorem unknown_fetcher_type (env env2 : Env)
    (url fetcher_type selector selector_type selector2 selector_type2 : String)
    (options : Options)
    (h1 : fetcher_type ≠ "Fetcher") (h2 : fetcher_type ≠ "StealthyFetcher")
    (h3 : fetcher_type ≠ "DynamicFetcher") :
    scrape env url fetcher_type selector selector_type options =
      ScrapeResult.mk false [] ("Unknown fetcher type: " ++ fetcher_type) ∧
    scrape env url fetcher_type selector selector_type options =
      scrape env2 url fetcher_type selector2 selector_type2 options := by
  have hf : ∀ e : Env, fetchStep e url fetcher_type options =
      Except.error ("Unknown fetcher type: " ++ fetcher_type) := by
    intro e
    unfold fetchStep
    rw [if_neg h1, if_neg h2, if_neg h3]
  constructor
  · unfold scrape
    rw [hf env]
  · unfold scrape
    rw [hf env, hf env2]

/-! ## Concrete data used by the witnesses -/

def sampleElems : List Element :=
  [Element.mk (some " hi ") none "e1", Element.mk (some "  ") none "e2",
   Element.mk none none "raw"]

def sampleEntry : HistoryEntry :=
  HistoryEntry.mk "u" "Fetcher" "s" 1 "✅" "12:00:00"

def envBoom : Env :=
  Env.mk (fun _ _ => Except.error "boom") (fun _ _ _ => Except.error "boom")
    (fun _ _ _ => Except.error "boom")

def pageOne : Page :=
  Page.mk (fun _ => Except.ok [Element.mk (some " hi ") (some "<p>hi</p>") "el"])
    (fun _ => Except.error "nope")

def envOne : Env :=
  Env.mk (fun _ _ => Except.ok pageOne) (fun _ _ _ => Except.error "boom")
    (fun _ _ _ => Except.error "boom")

def emptyState : SessionState := SessionState.mk none []

/-- C1 witness: the theorem applied at a concrete selector and element list. -/
theorem text_selector_records_witness :
    isSubstr "::text" ".q::text" = true ∧
    (normalize ".q::text" sampleElems =
      (sampleElems.filter fun el => decide (pyStrip (textOrStr el) ≠ "")).map
        (fun el => [("text", pyStrip (textOrStr el))]) ∧
     ∀ r ∈ normalize ".q::text" sampleElems, ∃ v : String,
       r = [("text", v)] ∧ v ≠ "" ∧ v.data.all Char.isWhitespace = false) :=
  ⟨by decide, text_selector_records ".q::text" sampleElems (by decide)⟩

/-- C2 witness: the theorem applied at a concrete selector and element list. -/
theorem attr_selector_records_witness :
    isSubstr "::attr(" "a::attr(href)" = true ∧
    isSubstr "::text" "a::attr(href)" = false ∧
    normalize "a::attr(href)" sampleElems =
      sampleElems.map (fun el => [("value", el.str)]) :=
  ⟨by decide, by decide,
    attr_selector_records "a::attr(href)" sampleElems (by decide) (by decide)⟩

/-- C3 witness: the theorem applied at a concrete selector and element list. -/
theorem plain_selector_records_witness :
    isSubstr "::text" "div.q" = false ∧
    isSubstr "::attr(" "div.q" = false ∧
    (normalize "div.q" sampleElems = sampleElems.map (fun el =>
      [("text", if el.text?.getD "" ≠ "" then pyStrip (el.text?.getD "") else ""),
       ("html", pyTake 200 (el.html?.getD el.str))]) ∧
     ∀ r ∈ normalize "div.q" sampleElems, ∃ t h : String,
       r = [("text", t), ("html", h)] ∧ h.length ≤ 200) :=
  ⟨by decide, by decide,
    plain_selector_records "div.q" sampleElems (by decide) (by decide)⟩

/-- C4 witness: the theorem applied at a full history of exactly 20 entries. -/
theorem history_capped_witness :
    (List.replicate 20 sampleEntry).length ≤ 20 ∧
    (add_to_history (List.replicate 20 sampleEntry) "u2" "Fetcher" "s2" 3 "✅" "12:00:01" =
      HistoryEntry.mk (truncTo 50 "u2") "Fetcher" (truncTo 30 "s2") 3 "✅" "12:00:01"
        :: (List.replicate 20 sampleEntry).take 19 ∧
     (add_to_history (List.replicate 20 sampleEntry) "u2" "Fetcher" "s2" 3 "✅" "12:00:01").length ≤ 20 ∧
     ((List.replicate 20 sampleEntry).length = 20 →
       add_to_history (List.replicate 20 sampleEntry) "u2" "Fetcher" "s2" 3 "✅" "12:00:01" =
         HistoryEntry.mk (truncTo 50 "u2") "Fetcher" (truncTo 30 "s2") 3 "✅" "12:00:01"
           :: (List.replicate 20 sampleEntry).dropLast)) :=
  ⟨by simp,
    history_capped (List.replicate 20 sampleEntry) "u2" "Fetcher" "s2" 3 "✅" "12:00:01"
      (by simp)⟩

/-- C10 witness: the theorem applied at a 60-character url and a
35-character selector over an empty history. -/
theorem history_entry_truncation_witness :
    (∀ e ∈ ([] : List HistoryEntry), e.url.length ≤ 53 ∧ e.selector.length ≤ 33) ∧
    ((add_to_history [] "aaaaaaaaaaaaaaaaaaaaaaaaaaaaaaaaaaaaaaaaaaaaaaaaaaaaaaaaaaaa"
        "Fetcher" "sssssssssssssssssssssssssssssssssss" 2 "✅" "12:00:02").head? =
      some (HistoryEntry.mk
        (truncTo 50 "aaaaaaaaaaaaaaaaaaaaaaaaaaaaaaaaaaaaaaaaaaaaaaaaaaaaaaaaaaaa")
        "Fetcher" (truncTo 30 "sssssssssssssssssssssssssssssssssss") 2 "✅" "12:00:02") ∧
     truncTo 50 "aaaaaaaaaaaaaaaaaaaaaaaaaaaaaaaaaaaaaaaaaaaaaaaaaaaaaaaaaaaa" =
       (if 50 < ("aaaaaaaaaaaaaaaaaaaaaaaaaaaaaaaaaaaaaaaaaaaaaaaaaaaaaaaaaaaa" : String).length
        then pyTake 50 "aaaaaaaaaaaaaaaaaaaaaaaaaaaaaaaaaaaaaaaaaaaaaaaaaaaaaaaaaaaa" ++ "..."
        else "aaaaaaaaaaaaaaaaaaaaaaaaaaaaaaaaaaaaaaaaaaaaaaaaaaaaaaaaaaaa") ∧
     truncTo 30 "sssssssssssssssssssssssssssssssssss" =
       (if 30 < ("sssssssssssssssssssssssssssssssssss" : String).length
        then pyTake 30 "sssssssssssssssssssssssssssssssssss" ++ "..."
        else "sssssssssssssssssssssssssssssssssss") ∧
     ∀ e ∈ add_to_history [] "aaaaaaaaaaaaaaaaaaaaaaaaaaaaaaaaaaaaaaaaaaaaaaaaaaaaaaaaaaaa"
        "Fetcher" "sssssssssssssssssssssssssssssssssss" 2 "✅" "12:00:02",
       e.url.length ≤ 53 ∧ e.selector.length ≤ 33) :=
  ⟨by simp,
    history_entry_truncation []
      "aaaaaaaaaaaaaaaaaaaaaaaaaaaaaaaaaaaaaaaaaaaaaaaaaaaaaaaaaaaa"
      "Fetcher" "sssssssssssssssssssssssssssssssssss" 2 "✅" "12:00:02" (by simp)⟩

/-- C5 witness: the theorem applied with a fetch collaborator that raises. -/
theorem scrape_failure_behavior_witness :
    ("http://x" : String) ≠ "" ∧ ("p" : String) ≠ "" ∧
    knownFetcher "Fetcher" = true ∧
    (fetchStep envBoom "http://x" "Fetcher" Options.empty = Except.error "boom" ∨
      ∃ page, fetchStep envBoom "http://x" "Fetcher" Options.empty = Except.ok page ∧
        queryStep page "p" "CSS" = Except.error "boom") ∧
    (scrape envBoom "http://x" "Fetcher" "p" "CSS" Options.empty =
      ScrapeResult.mk false [] "boom" ∧
     (runScrapeAction envBoom emptyState "http://x" "Fetcher" "p" "CSS" Options.empty
        "12:00:03").1.results = emptyState.results ∧
     (runScrapeAction envBoom emptyState "http://x" "Fetcher" "p" "CSS" Options.empty
        "12:00:03").1.history =
       add_to_history emptyState.history "http://x" "Fetcher" "p" 0 "❌" "12:00:03" ∧
     (runScrapeAction envBoom emptyState "http://x" "Fetcher" "p" "CSS" Options.empty
        "12:00:03").2 = Banner.failure "boom") :=
  ⟨by decide, by decide, by decide, Or.inl rfl,
    scrape_failure_behavior envBoom emptyState "http://x" "Fetcher" "p" "CSS"
      Options.empty "12:00:03" "boom" (by decide) (by decide) (by decide) (Or.inl rfl)⟩

/-- C8 witness: the theorem applied with a fetch collaborator that succeeds. -/
theorem success_replaces_results_witness :
    ("http://x" : String) ≠ "" ∧ ("p::text" : String) ≠ "" ∧
    scrape envOne "http://x" "Fetcher" "p::text" "CSS" Options.empty =
      ScrapeResult.mk true [[("text", "hi")]] "" ∧
    ((runScrapeAction envOne emptyState "http://x" "Fetcher" "p::text" "CSS" Options.empty
        "12:00:04").1.results = some [[("text", "hi")]] ∧
     (∀ prev : Option (List Record),
       runScrapeAction envOne (SessionState.mk prev emptyState.history) "http://x" "Fetcher"
           "p::text" "CSS" Options.empty "12:00:04" =
         runScrapeAction envOne emptyState "http://x" "Fetcher" "p::text" "CSS" Options.empty
           "12:00:04") ∧
     (runScrapeAction envOne emptyState "http://x" "Fetcher" "p::text" "CSS" Options.empty
        "12:00:04").1.history =
       add_to_history emptyState.history "http://x" "Fetcher" "p::text"
         [[("text", "hi")]].length "✅" "12:00:04" ∧
     ((runScrapeAction envOne emptyState "http://x" "Fetcher" "p::text" "CSS" Options.empty
        "12:00:04").1.history).head? =
       some (HistoryEntry.mk (truncTo 50 "http://x") "Fetcher" (truncTo 30 "p::text")
         [[("text", "hi")]].length "✅" "12:00:04") ∧
     (runScrapeAction envOne emptyState "http://x" "Fetcher" "p::text" "CSS" Options.empty
        "12:00:04").2 = Banner.success [[("text", "hi")]].length) :=
  ⟨by decide, by decide, rfl,
    success_replaces_results envOne emptyState "http://x" "Fetcher" "p::text" "CSS"
      Options.empty "12:00:04" [[("text", "hi")]] (by decide) (by decide) rfl⟩

/-- C9 witness: the theorem applied at the unknown fetcher type `Bogus`. -/
theorem unknown_fetcher_type_witness :
    ("Bogus" : String) ≠ "Fetcher" ∧ ("Bogus" : String) ≠ "StealthyFetcher" ∧
    ("Bogus" : String) ≠ "DynamicFetcher" ∧
    (scrape envBoom "u" "Bogus" "p" "CSS" Options.empty =
      ScrapeResult.mk false [] ("Unknown fetcher type: " ++ "Bogus") ∧
     scrape envBoom "u" "Bogus" "p" "CSS" Options.empty =
       scrape envOne "u" "Bogus" "q" "XPath" Options.empty) :=
  ⟨by decide, by decide, by decide,
    unknown_fetcher_type envBoom envOne "u" "Bogus" "p" "CSS" "q" "XPath" Options.empty
      (by decide) (by decide) (by decide)⟩

/-! ## JSON export (`to_json`, `app.py` lines 109–110)

`json.dumps(data, indent=2, ensure_ascii=False)` for a list of flat
string-valued records, followed by `.encode("utf-8")`.  The byte encoding
is the identity on the text (UTF-8 decoding inverts it), so the export is
modelled at the level of the character sequence.  The serializer below
reproduces the exact layout of `json.dumps` with `indent=2`: two-space
indentation per level, `",\n"` between items, `": "` between key and
value, `[]` and two braces for the empty collections. -/

/-- Lowercase hexadecimal digit, as used by the `\u00XX` escapes. -/
def hexDig (n : Nat) : Char :=
  if n < 10 then Char.ofNat (48 + n) else Char.ofNat (87 + n)

/-- JSON escaping of one character with `ensure_ascii=False`: two-character
escapes for the quote, the backslash and the five named control characters,
`\u00XX` for the remaining control characters, anything else unchanged. -/
def escChar (c : Char) : List Char :=
  if c = '"' then ['\\', '"']
  else if c = '\\' then ['\\', '\\']
  else if c = '\n' then ['\\', 'n']
  else if c = '\t' then ['\\', 't']
  else if c = '\r' then ['\\', 'r']
  else if c = Char.ofNat 8 then ['\\', 'b']
  else if c = Char.ofNat 12 then ['\\', 'f']
  else if c.toNat < 32 then
    ['\\', 'u', '0', '0', hexDig (c.toNat / 16), hexDig (c.toNat % 16)]
  else [c]

def escStr (s : List Char) : List Char :=
  (s.map escChar).flatten

/-- A JSON string literal. -/
def strChars (s : String) : List Char :=
  '"' :: (escStr s.data ++ ['"'])

/-- Join chunks with a separator (`sep.join` at the character level). -/
def joinSep (sep : List Char) : List (List Char) → List Char
  | [] => []
  | [x] => x
  | x :: y :: xs => x ++ sep ++ joinSep sep (y :: xs)

/-- One `"key": "value"` member line, indented four spaces (depth two). -/
def pairChars (p : String × String) : List Char :=
  ' ' :: ' ' :: ' ' :: ' ' :: (strChars p.1 ++ ':' :: ' ' :: strChars p.2)

/-- One record as a JSON object at depth one. -/
def objChars (r : Record) : List Char :=
  match r with
  | [] => ['{', '}']
  | _ :: _ =>
    '{' :: '\n' :: (joinSep [',', '\n'] (r.map pairChars) ++ ['\n', ' ', ' ', '}'])

/-- One array item: the object indented two spaces. -/
def itemChars (r : Record) : List Char :=
  ' ' :: ' ' :: objChars r

/-- The full serialized document. -/
def jsonDump (data : List Record) : List Char :=
  match data with
  | [] => ['[', ']']
  | _ :: _ => '[' :: '\n' :: (joinSep [',', '\n'] (data.map itemChars) ++ ['\n', ']'])

/-- `app.py` lines 109–110: the JSON export of the result list. -/
def to_json (data : List Record) : String :=
  String.mk (jsonDump data)

/-! The reader (modelling `json.loads` on documents of this shape: an array
of objects whose values are strings). -/

def hexVal (c : Char) : Option Nat :=
  if '0' ≤ c ∧ c ≤ '9' then some (c.toNat - 48)
  else if 'a' ≤ c ∧ c ≤ 'f' then some (c.toNat - 87)
  else if 'A' ≤ c ∧ c ≤ 'F' then some (c.toNat - 55)
  else none

def unescCode (e : Char) : Option Char :=
  if e = '"' then some '"'
  else if e = '\\' then some '\\'
  else if e = '/' then some '/'
  else if e = 'b' then some (Char.ofNat 8)
  else if e = 'f' then some (Char.ofNat 12)
  else if e = 'n' then some '\n'
  else if e = 'r' then some '\r'
  else if e = 't' then some '\t'
  else none

def isWsChar (c : Char) : Bool :=
  c = ' ' || c = '\n' || c = '\t' || c = '\r'

def skipWs : List Char → List Char
  | [] => []
  | c :: r => if isWsChar c then skipWs r else c :: r

/-- String body after the opening quote: unescape until the closing quote. -/
def parseStrBody : List Char → Option (List Char × List Char)
  | [] => none
  | c :: r =>
    if c = '"' then some ([], r)
    else if c = '\\' then
      match r with
      | [] => none
      | e :: r2 =>
        if e = 'u' then
          match r2 with
          | h1 :: h2 :: h3 :: h4 :: r3 =>
            match hexVal h1, hexVal h2, hexVal h3, hexVal h4 with
            | some a, some b, some v3, some v4 =>
              (parseStrBody r3).map fun pr =>
                (Char.ofNat (((a * 16 + b) * 16 + v3) * 16 + v4) :: pr.1, pr.2)
            | _, _, _, _ => none
          | _ => none
        else
          match unescCode e with
          | some ch => (parseStrBody r2).map fun pr => (ch :: pr.1, pr.2)
          | none => none
    else (parseStrBody r).map fun pr => (c :: pr.1, pr.2)

def parseString (l : List Char) : Option (String × List Char) :=
  match l with
  | [] => none
  | c :: r =>
    if c = '"' then (parseStrBody r).map fun pr => (String.mk pr.1, pr.2)
    else none

/-- One `"key": "value"` member, leading whitespace allowed. -/
def parseMember (l : List Char) : Option ((String × String) × List Char) :=
  match parseString (skipWs l) with
  | none => none
  | some (k, r1) =>
    match skipWs r1 with
    | [] => none
    | c :: r2 =>
      if c = ':' then
        match parseString (skipWs r2) with
        | none => none
        | some (v, r3) => some ((k, v), r3)
      else none

/-- The members of a non-empty object, consuming the closing brace. -/
def parseMembers : Nat → List Char → Option (Record × List Char)
  | 0, _ => none
  | fuel + 1, l =>
    match parseMember l with
    | none => none
    | some (kv, r) =>
      match skipWs r with
      | [] => none
      | c :: r2 =>
        if c = ',' then (parseMembers fuel r2).map fun pr => (kv :: pr.1, pr.2)
        else if c = '}' then some ([kv], r2)
        else none

def parseObj (fuel : Nat) (l : List Char) : Option (Record × List Char) :=
  match skipWs l with
  | [] => none
  | c :: r =>
    if c = '{' then
      match skipWs r with
      | [] => none
      | c2 :: r2 =>
        if c2 = '}' then some ([], r2) else parseMembers fuel r
    else none

/-- The items of a non-empty array, consuming the closing bracket. -/
def parseItems : Nat → Nat → List Char → Option (List Record × List Char)
  | 0, _, _ => none
  | fuel + 1, ofuel, l =>
    match parseObj ofuel l with
    | none => none
    | some (ob, r) =>
      match skipWs r with
      | [] => none
      | c :: r2 =>
        if c = ',' then (parseItems fuel ofuel r2).map fun pr => (ob :: pr.1, pr.2)
        else if c = ']' then some ([ob], r2)
        else none

/-- Parse a whole document (an array of string-valued objects), requiring
only whitespace after it, as `json.loads` does. -/
def parseJson (s : String) : Option (List Record) :=
  match skipWs s.data with
  | [] => none
  | c :: r =>
    if c = '[' then
      match skipWs r with
      | [] => none
      | c2 :: r2 =>
        if c2 = ']' then (if skipWs r2 = [] then some [] else none)
        else
          match parseItems (s.data.length + 1) (s.data.length + 1) r with
          | some (items, rest) => if skipWs rest = [] then some items else none
          | none => none
    else none

/-! ## Round-trip lemmas for the JSON reader -/

theorem data_mk (l : List Char) : (String.mk l).data = l := rfl

theorem mk_data (s : String) : String.mk s.data = s := rfl

theorem skipWs_nl (l : List Char) : skipWs ('\n' :: l) = skipWs l := rfl

theorem skipWs_sp (l : List Char) : skipWs (' ' :: l) = skipWs l := rfl

theorem skipWs_stop {c : Char} (l : List Char) (h : isWsChar c = false) :
    skipWs (c :: l) = c :: l := by
  simp [skipWs, h]

theorem skipWs_strChars (s : String) (rest : List Char) :
    skipWs (strChars s ++ rest) = strChars s ++ rest := by
  simp only [strChars, List.cons_append]
  exact skipWs_stop _ (by decide)

theorem hexVal_hexDig (a : Nat) (ha : a < 16) : hexVal (hexDig a) = some a := by
  interval_cases a <;> rfl

theorem hexVal_zero : hexVal '0' = some 0 := by decide

theorem parseStrBody_escStr (s : List Char) (rest : List Char) :
    parseStrBody (escStr s ++ '"' :: rest) = some (s, rest) := by
  induction s with
  | nil =>
    have h0 : escStr [] ++ '"' :: rest = '"' :: rest := by simp [escStr]
    rw [h0, parseStrBody.eq_def]
    simp
  | cons c s ih =>
    have hesc : escStr (c :: s) ++ '"' :: rest =
        escChar c ++ (escStr s ++ '"' :: rest) := by
      simp [escStr, List.append_assoc]
    rw [hesc]
    by_cases h1 : c = '"'
    · subst h1
      rw [show escChar '"' = ['\\', '"'] from rfl, List.cons_append, List.cons_append,
        List.nil_append, parseStrBody.eq_def]
      simp [unescCode, ih]
    · by_cases h2 : c = '\\'
      · subst h2
        rw [show escChar '\\' = ['\\', '\\'] from by simp [escChar], List.cons_append,
          List.cons_append, List.nil_append, parseStrBody.eq_def]
        simp [unescCode, ih]
      · by_cases h3 : c = '\n'
        · subst h3
          rw [show escChar '\n' = ['\\', 'n'] from by simp [escChar], List.cons_append,
            List.cons_append, List.nil_append, parseStrBody.eq_def]
          simp [unescCode, ih]
        · by_cases h4 : c = '\t'
          · subst h4
            rw [show escChar '\t' = ['\\', 't'] from by simp [escChar], List.cons_append,
              List.cons_append, List.nil_append, parseStrBody.eq_def]
            simp [unescCode, ih]
          · by_cases h5 : c = '\r'
            · subst h5
              rw [show escChar '\r' = ['\\', 'r'] from by simp [escChar], List.cons_append,
                List.cons_append, List.nil_append, parseStrBody.eq_def]
              simp [unescCode, ih]
            · by_cases h6 : c = Char.ofNat 8
              · subst h6
                rw [show escChar (Char.ofNat 8) = ['\\', 'b'] from by simp [escChar],
                  List.cons_append, List.cons_append, List.nil_append, parseStrBody.eq_def]
                simp [unescCode, ih]
              · by_cases h7 : c = Char.ofNat 12
                · subst h7
                  rw [show escChar (Char.ofNat 12) = ['\\', 'f'] from by simp [escChar],
                    List.cons_append, List.cons_append, List.nil_append, parseStrBody.eq_def]
                  simp [unescCode, ih]
                · by_cases h8 : c.toNat < 32
                  · have hchar : escChar c = ['\\', 'u', '0', '0',
                        hexDig (c.toNat / 16), hexDig (c.toNat % 16)] := by
                      simp [escChar, h1, h2, h3, h4, h5, h6, h7, h8]
                    have hd : hexVal (hexDig (c.toNat / 16)) = some (c.toNat / 16) :=
                      hexVal_hexDig _ (by omega)
                    have hm : hexVal (hexDig (c.toNat % 16)) = some (c.toNat % 16) :=
                      hexVal_hexDig _ (by omega)
                    have hval : c.toNat / 16 * 16 + c.toNat % 16 = c.toNat := by
                      omega
                    rw [hchar]
                    simp only [List.cons_append, List.nil_append]
                    rw [parseStrBody.eq_def]
                    simp [hexVal_zero, hd, hm, hval, Char.ofNat_toNat, ih]
                  · have hchar : escChar c = [c] := by
                      simp [escChar, h1, h2, h3, h4, h5, h6, h7, h8]
                    rw [hchar, List.cons_append, List.nil_append, parseStrBody.eq_def]
                    simp [h1, h2, ih]

theorem parseString_strChars (s : String) (rest : List Char) :
    parseString (strChars s ++ rest) = some (s, rest) := by
  simp [strChars, parseString, List.append_assoc, parseStrBody_escStr, mk_data]

theorem skipWs_colon (l : List Char) : skipWs (':' :: l) = ':' :: l :=
  skipWs_stop l (by decide)

theorem skipWs_comma (l : List Char) : skipWs (',' :: l) = ',' :: l :=
  skipWs_stop l (by decide)

theorem skipWs_rbrace (l : List Char) : skipWs ('}' :: l) = '}' :: l :=
  skipWs_stop l (by decide)

theorem skipWs_lbrace (l : List Char) : skipWs ('{' :: l) = '{' :: l :=
  skipWs_stop l (by decide)

theorem skipWs_rbrack (l : List Char) : skipWs (']' :: l) = ']' :: l :=
  skipWs_stop l (by decide)

theorem skipWs_lbrack (l : List Char) : skipWs ('[' :: l) = '[' :: l :=
  skipWs_stop l (by decide)

theorem joinSep_cons2 (sep x y : List Char) (xs : List (List Char)) :
    joinSep sep (x :: y :: xs) = x ++ sep ++ joinSep sep (y :: xs) := rfl

theorem parseMember_pair (p : String × String) (rest : List Char) :
    parseMember ('\n' :: (pairChars p ++ rest)) = some (p, rest) := by
  obtain ⟨k, v⟩ := p
  have hstream : '\n' :: (pairChars (k, v) ++ rest) =
      '\n' :: ' ' :: ' ' :: ' ' :: ' ' ::
        (strChars k ++ (':' :: ' ' :: (strChars v ++ rest))) := by
    simp [pairChars, List.append_assoc]
  rw [hstream]
  unfold parseMember
  rw [skipWs_nl, skipWs_sp, skipWs_sp, skipWs_sp, skipWs_sp, skipWs_strChars,
    parseString_strChars]
  dsimp only
  rw [skipWs_colon]
  dsimp only
  rw [if_pos rfl, skipWs_sp, skipWs_strChars, parseString_strChars]

theorem parseMembers_spec (ps : List (String × String)) :
    ∀ (p : String × String) (fuel : Nat) (rest : List Char), ps.length + 1 ≤ fuel →
    parseMembers fuel ('\n' :: (joinSep [',', '\n'] ((p :: ps).map pairChars) ++
      ('\n' :: ' ' :: ' ' :: '}' :: rest))) = some (p :: ps, rest) := by
  induction ps with
  | nil =>
    intro p fuel rest hfuel
    cases fuel with
    | zero => simp at hfuel
    | succ f =>
      have hstream : '\n' :: (joinSep [',', '\n'] ([p].map pairChars) ++
          ('\n' :: ' ' :: ' ' :: '}' :: rest)) =
          '\n' :: (pairChars p ++ ('\n' :: ' ' :: ' ' :: '}' :: rest)) := by
        simp [joinSep]
      rw [hstream, parseMembers.eq_def]
      dsimp only
      rw [parseMember_pair]
      dsimp only
      rw [skipWs_nl, skipWs_sp, skipWs_sp, skipWs_rbrace]
      dsimp only
      rw [if_neg (by decide), if_pos rfl]
  | cons q qs ih =>
    intro p fuel rest hfuel
    cases fuel with
    | zero => simp at hfuel
    | succ f =>
      have hstream : '\n' :: (joinSep [',', '\n'] ((p :: q :: qs).map pairChars) ++
          ('\n' :: ' ' :: ' ' :: '}' :: rest)) =
          '\n' :: (pairChars p ++ (',' :: '\n' ::
            (joinSep [',', '\n'] ((q :: qs).map pairChars) ++
              ('\n' :: ' ' :: ' ' :: '}' :: rest)))) := by
        simp [joinSep_cons2, List.append_assoc]
      rw [hstream, parseMembers.eq_def]
      dsimp only
      rw [parseMember_pair]
      dsimp only
      rw [skipWs_comma]
      dsimp only
      rw [if_pos rfl]
      have hf : qs.length + 1 ≤ f := by
        simp at hfuel
        omega
      rw [ih q f rest hf]
      rfl

theorem parseObj_spec (r : Record) (rest : List Char) (fuel : Nat)
    (hfuel : r.length + 1 ≤ fuel) :
    parseObj fuel ('\n' :: ' ' :: ' ' :: (objChars r ++ rest)) = some (r, rest) := by
  cases r with
  | nil =>
    unfold parseObj
    rw [skipWs_nl, skipWs_sp, skipWs_sp,
      show objChars [] ++ rest = '{' :: '}' :: rest from rfl, skipWs_lbrace]
    dsimp only
    rw [if_pos rfl, skipWs_rbrace]
    dsimp only
    rw [if_pos rfl]
  | cons p ps =>
    have hobj : objChars (p :: ps) ++ rest =
        '{' :: '\n' :: (joinSep [',', '\n'] ((p :: ps).map pairChars) ++
          ('\n' :: ' ' :: ' ' :: '}' :: rest)) := by
      simp [objChars, List.append_assoc]
    unfold parseObj
    rw [skipWs_nl, skipWs_sp, skipWs_sp, hobj, skipWs_lbrace]
    dsimp only
    rw [if_pos rfl]
    obtain ⟨t, ht⟩ : ∃ t, joinSep [',', '\n'] ((p :: ps).map pairChars) =
        pairChars p ++ t := by
      cases ps with
      | nil => exact ⟨[], by simp [joinSep]⟩
      | cons q qs =>
        exact ⟨',' :: '\n' :: joinSep [',', '\n'] ((q :: qs).map pairChars),
          by simp [joinSep_cons2, List.append_assoc]⟩
    obtain ⟨u, hu⟩ : ∃ u, skipWs ('\n' ::
        (joinSep [',', '\n'] ((p :: ps).map pairChars) ++
          ('\n' :: ' ' :: ' ' :: '}' :: rest))) = '"' :: u := by
      rw [ht, List.append_assoc,
        show pairChars p ++ (t ++ ('\n' :: ' ' :: ' ' :: '}' :: rest)) =
          ' ' :: ' ' :: ' ' :: ' ' :: (strChars p.1 ++ (':' :: ' ' ::
            (strChars p.2 ++ (t ++ ('\n' :: ' ' :: ' ' :: '}' :: rest)))))
          from by simp [pairChars, List.append_assoc],
        skipWs_nl, skipWs_sp, skipWs_sp, skipWs_sp, skipWs_sp, skipWs_strChars,
        show strChars p.1 ++ (':' :: ' ' ::
            (strChars p.2 ++ (t ++ ('\n' :: ' ' :: ' ' :: '}' :: rest)))) =
          '"' :: (escStr p.1.data ++ ('"' :: (':' :: ' ' ::
            (strChars p.2 ++ (t ++ ('\n' :: ' ' :: ' ' :: '}' :: rest))))))
          from by simp [strChars, List.append_assoc]]
      exact ⟨_, rfl⟩
    rw [hu]
    dsimp only
    rw [if_neg (by decide)]
    have hf : ps.length + 1 ≤ fuel := by
      simp at hfuel
      omega
    exact parseMembers_spec ps p fuel rest hf

theorem parseItems_spec (rs : List Record) :
    ∀ (r : Record) (fuel ofuel : Nat) (rest : List Char),
      rs.length + 1 ≤ fuel → (∀ x ∈ r :: rs, x.length + 1 ≤ ofuel) →
    parseItems fuel ofuel ('\n' :: (joinSep [',', '\n'] ((r :: rs).map itemChars) ++
      ('\n' :: ']' :: rest))) = some (r :: rs, rest) := by
  induction rs with
  | nil =>
    intro r fuel ofuel rest hfuel hofuel
    cases fuel with
    | zero => simp at hfuel
    | succ f =>
      have hstream : '\n' :: (joinSep [',', '\n'] ([r].map itemChars) ++
          ('\n' :: ']' :: rest)) =
          '\n' :: ' ' :: ' ' :: (objChars r ++ ('\n' :: ']' :: rest)) := by
        simp [joinSep, itemChars]
      rw [hstream, parseItems.eq_def]
      dsimp only
      rw [parseObj_spec r _ ofuel (hofuel r (by simp))]
      dsimp only
      rw [skipWs_nl, skipWs_rbrack]
      dsimp only
      rw [if_neg (by decide), if_pos rfl]
  | cons q qs ih =>
    intro r fuel ofuel rest hfuel hofuel
    cases fuel with
    | zero => simp at hfuel
    | succ f =>
      have hstream : '\n' :: (joinSep [',', '\n'] ((r :: q :: qs).map itemChars) ++
          ('\n' :: ']' :: rest)) =
          '\n' :: ' ' :: ' ' :: (objChars r ++ (',' :: '\n' ::
            (joinSep [',', '\n'] ((q :: qs).map itemChars) ++
              ('\n' :: ']' :: rest)))) := by
        simp [joinSep_cons2, itemChars, List.append_assoc]
      rw [hstream, parseItems.eq_def]
      dsimp only
      rw [parseObj_spec r _ ofuel (hofuel r (by simp))]
      dsimp only
      rw [skipWs_comma]
      dsimp only
      rw [if_pos rfl]
      have hf : qs.length + 1 ≤ f := by
        simp at hfuel
        omega
      rw [ih q f ofuel rest hf (fun x hx => hofuel x (List.mem_cons_of_mem r hx))]
      rfl

/-! Length bounds feeding the recursion budget of the reader. -/

theorem le_length_joinSep (sep : List Char) (parts : List (List Char))
    (h : ∀ x ∈ parts, 1 ≤ x.length) : parts.length ≤ (joinSep sep parts).length := by
  induction parts with
  | nil => simp [joinSep]
  | cons x xs ih =>
    cases xs with
    | nil => simpa [joinSep] using h x (by simp)
    | cons y ys =>
      have hx := h x (by simp)
      have hys := ih (fun z hz => h z (by simp [hz]))
      rw [joinSep_cons2]
      simp only [List.length_append, List.length_cons] at hys ⊢
      omega

theorem mem_le_length_joinSep (sep : List Char) (parts : List (List Char))
    (x : List Char) (hx : x ∈ parts) : x.length ≤ (joinSep sep parts).length := by
  induction parts with
  | nil => simp at hx
  | cons y ys ih =>
    cases ys with
    | nil =>
      have : x = y := by simpa using hx
      subst this
      simp [joinSep]
    | cons z zs =>
      rcases List.mem_cons.mp hx with heq | hmem
      · subst heq
        rw [joinSep_cons2]
        simp only [List.length_append]
        omega
      · have h2 := ih hmem
        rw [joinSep_cons2]
        simp only [List.length_append]
        omega

theorem length_le_objChars (x : Record) : x.length + 1 ≤ (objChars x).length := by
  cases x with
  | nil => simp [objChars]
  | cons p ps =>
    have hall : ∀ z ∈ (p :: ps).map pairChars, 1 ≤ z.length := by
      intro z hz
      obtain ⟨q, _, rfl⟩ := List.mem_map.mp hz
      simp [pairChars]
    have h := le_length_joinSep [',', '\n'] ((p :: ps).map pairChars) hall
    rw [List.length_map] at h
    have hobj : (objChars (p :: ps)).length =
        (joinSep [',', '\n'] ((p :: ps).map pairChars)).length + 6 := by
      simp [objChars, List.length_append]
    omega

theorem length_itemChars (x : Record) :
    (itemChars x).length = (objChars x).length + 2 := by
  simp [itemChars]

/-- C6: the JSON export, parsed back, yields a value deep-equal to the
original record list. -/
theorem json_export_round_trip (data : List Record) :
    parseJson (to_json data) = some data := by
  cases data with
  | nil => decide
  | cons r rs =>
    have hall : ∀ z ∈ (r :: rs).map itemChars, 1 ≤ z.length := by
      intro z hz
      obtain ⟨q, _, rfl⟩ := List.mem_map.mp hz
      simp [itemChars]
    have hcount := le_length_joinSep [',', '\n'] ((r :: rs).map itemChars) hall
    rw [List.length_map] at hcount
    unfold parseJson to_json
    rw [data_mk,
      show jsonDump (r :: rs) = '[' :: ('\n' ::
        (joinSep [',', '\n'] ((r :: rs).map itemChars) ++ ('\n' :: ']' :: [])))
        from by simp [jsonDump]]
    rw [skipWs_lbrack]
    dsimp only
    rw [if_pos rfl]
    obtain ⟨u, hu⟩ : ∃ u, skipWs ('\n' ::
        (joinSep [',', '\n'] ((r :: rs).map itemChars) ++ ('\n' :: ']' :: []))) =
        '{' :: u := by
      obtain ⟨t, ht⟩ : ∃ t, joinSep [',', '\n'] ((r :: rs).map itemChars) =
          itemChars r ++ t := by
        cases rs with
        | nil => exact ⟨[], by simp [joinSep]⟩
        | cons q qs =>
          exact ⟨',' :: '\n' :: joinSep [',', '\n'] ((q :: qs).map itemChars),
            by simp [joinSep_cons2, List.append_assoc]⟩
      obtain ⟨w, hw⟩ : ∃ w, objChars r = '{' :: w := by
        cases r with
        | nil => exact ⟨['}'], rfl⟩
        | cons p ps => exact ⟨_, rfl⟩
      rw [ht, List.append_assoc,
        show itemChars r ++ (t ++ ('\n' :: ']' :: [])) =
          ' ' :: ' ' :: (objChars r ++ (t ++ ('\n' :: ']' :: [])))
          from by simp [itemChars],
        skipWs_nl, skipWs_sp, skipWs_sp, hw, List.cons_append, skipWs_lbrace]
      exact ⟨_, rfl⟩
    rw [hu]
    dsimp only
    rw [if_neg (by decide)]
    have hlen : ('[' :: ('\n' ::
        (joinSep [',', '\n'] ((r :: rs).map itemChars) ++ ('\n' :: ']' :: [])))).length =
        (joinSep [',', '\n'] ((r :: rs).map itemChars)).length + 4 := by
      simp [List.length_append]
    have hfuel : rs.length + 1 ≤ ('[' :: ('\n' ::
        (joinSep [',', '\n'] ((r :: rs).map itemChars) ++ ('\n' :: ']' :: [])))).length + 1 := by
      simp only [List.length_cons] at hcount
      omega
    have hofuel : ∀ x ∈ r :: rs, x.length + 1 ≤ ('[' :: ('\n' ::
        (joinSep [',', '\n'] ((r :: rs).map itemChars) ++ ('\n' :: ']' :: [])))).length + 1 := by
      intro x hx
      have h1 := length_le_objChars x
      have h2 := length_itemChars x
      have h3 := mem_le_length_joinSep [',', '\n'] ((r :: rs).map itemChars)
        (itemChars x) (List.mem_map_of_mem itemChars hx)
      omega
    rw [parseItems_spec rs r _ _ [] hfuel hofuel]
    dsimp only
    rw [show skipWs ([] : List Char) = [] from rfl, if_pos rfl]

/-! ## CSV export (`to_csv`, `app.py` lines 104–106)

`pd.DataFrame(data).to_csv(index=False).encode("utf-8")` for a non-empty
list of flat records sharing one key list: the columns are the keys in
record order, the header row carries the column names, each record becomes
one row of its values, every row ends with a newline, and fields are
quoted minimally (`csv.QUOTE_MINIMAL`, the default of the tabular library:
a field is wrapped in double quotes, embedded quotes doubled, exactly when
it contains a comma, a quote, or a line break).  The byte encoding is the
identity on the text and is again left at the text level.  The reader
models reading the bytes back through the tabular library with string
cells: header line first, then one row per line, honouring quoting. -/

def needsQuote (f : List Char) : Bool :=
  f.any fun c => c = ',' || c = '"' || c = '\n' || c = '\r'

def escQ (f : List Char) : List Char :=
  (f.map fun c => if c = '"' then ['"', '"'] else [c]).flatten

def quoteField (f : List Char) : List Char :=
  if needsQuote f then '"' :: (escQ f ++ ['"']) else f

def rowChars (fields : List (List Char)) : List Char :=
  joinSep [','] (fields.map quoteField) ++ ['\n']

def csvChars (data : List Record) : List Char :=
  match data with
  | [] => ['\n']
  | r :: _ =>
    rowChars (r.map fun p => p.1.data) ++
      ((data.map fun row => rowChars (row.map fun p => p.2.data)).flatten)

/-- `app.py` lines 104–106: the CSV export of the result list. -/
def to_csv (data : List Record) : String :=
  String.mk (csvChars data)

def notSep (c : Char) : Bool :=
  !(c = ',' || c = '\n')

/-- Quoted-field body after the opening quote: a doubled quote is a literal
quote, a lone quote closes the field. -/
def parseQuoted : List Char → Option (List Char × List Char)
  | [] => none
  | c :: r =>
    if c = '"' then
      match r with
      | [] => some ([], [])
      | c2 :: r2 =>
        if c2 = '"' then (parseQuoted r2).map fun pr => ('"' :: pr.1, pr.2)
        else some ([], c2 :: r2)
    else (parseQuoted r).map fun pr => (c :: pr.1, pr.2)

def parseField (l : List Char) : Option (List Char × List Char) :=
  match l with
  | [] => some ([], [])
  | c :: _ =>
    if c = '"' then parseQuoted l.tail
    else some (l.takeWhile notSep, l.dropWhile notSep)

/-- One CSV line, consuming the terminating newline. -/
def parseRow : Nat → List Char → Option (List String × List Char)
  | 0, _ => none
  | fuel + 1, l =>
    match parseField l with
    | none => none
    | some (f, r) =>
      match r with
      | [] => none
      | c :: r2 =>
        if c = ',' then (parseRow fuel r2).map fun pr => (String.mk f :: pr.1, pr.2)
        else if c = '\n' then some ([String.mk f], r2)
        else none

def parseRows : Nat → Nat → List Char → Option (List (List String))
  | 0, _, _ => none
  | fuel + 1, rfuel, l =>
    if l = [] then some []
    else
      match parseRow rfuel l with
      | none => none
      | some (row, r) => (parseRows fuel rfuel r).map fun rows => row :: rows

/-- Read the whole CSV text back: the header line, then the data rows. -/
def readCsv (s : String) : Option (List String × List (List String)) :=
  match parseRow (s.data.length + 1) s.data with
  | none => none
  | some (hdr, r) =>
    match parseRows (s.data.length + 1) (s.data.length + 1) r with
    | none => none
    | some rows => some (hdr, rows)

/-! ## Round-trip lemmas for the CSV reader -/

theorem parseQuoted_escQ (f : List Char) (rest : List Char)
    (hq : ∀ u, rest ≠ '"' :: u) :
    parseQuoted (escQ f ++ '"' :: rest) = some (f, rest) := by
  induction f with
  | nil =>
    have h0 : escQ [] ++ '"' :: rest = '"' :: rest := by simp [escQ]
    rw [h0, parseQuoted.eq_def]
    cases rest with
    | nil => simp
    | cons c2 r2 =>
      have hc2 : ¬ c2 = '"' := fun he => hq r2 (by rw [he])
      simp [hc2]
  | cons c f ih =>
    by_cases hc : c = '"'
    · subst hc
      have hstep : escQ ('"' :: f) ++ '"' :: rest =
          '"' :: '"' :: (escQ f ++ '"' :: rest) := by
        simp [escQ]
      rw [hstep, parseQuoted.eq_def]
      simp [ih]
    · have hstep : escQ (c :: f) ++ '"' :: rest = c :: (escQ f ++ '"' :: rest) := by
        simp [escQ, hc]
      rw [hstep, parseQuoted.eq_def]
      simp [hc, ih]

theorem takeWhile_append_all (p : Char → Bool) (f : List Char) (sep : Char)
    (rest : List Char) (hf : ∀ c ∈ f, p c = true) (hsep : p sep = false) :
    (f ++ sep :: rest).takeWhile p = f ∧ (f ++ sep :: rest).dropWhile p = sep :: rest := by
  induction f with
  | nil => simp [List.takeWhile_cons, List.dropWhile_cons, hsep]
  | cons c f ih =>
    have hc := hf c (by simp)
    have ihh := ih (fun x hx => hf x (by simp [hx]))
    simp [List.takeWhile_cons, List.dropWhile_cons, hc, ihh.1, ihh.2]

theorem parseField_quoteField (f : List Char) (sep : Char) (rest : List Char)
    (hsep : sep = ',' ∨ sep = '\n') :
    parseField (quoteField f ++ sep :: rest) = some (f, sep :: rest) := by
  have hsepq : ¬ sep = '"' := by
    rcases hsep with h | h <;> subst h <;> decide
  by_cases hnq : needsQuote f = true
  · have hqf : quoteField f ++ sep :: rest = '"' :: (escQ f ++ '"' :: sep :: rest) := by
      simp [quoteField, hnq, List.append_assoc]
    rw [hqf]
    unfold parseField
    dsimp only
    rw [if_pos rfl]
    refine parseQuoted_escQ f (sep :: rest) ?_
    intro u hu
    injection hu with h1 _
    exact hsepq h1
  · have hnq2 : needsQuote f = false := by
      simpa using hnq
    have hmem : ∀ c ∈ f, ¬ c = ',' ∧ ¬ c = '"' ∧ ¬ c = '\n' ∧ ¬ c = '\r' := by
      intro c hc
      have h2 := (List.any_eq_false.mp hnq2) c hc
      simpa [and_assoc] using h2
    have hall : ∀ c ∈ f, notSep c = true := by
      intro c hc
      obtain ⟨h1, _, h3, _⟩ := hmem c hc
      simp [notSep, h1, h3]
    have hns : notSep sep = false := by
      rcases hsep with h | h <;> subst h <;> decide
    have hqf : quoteField f = f := by
      simp [quoteField, hnq2]
    rw [hqf]
    cases f with
    | nil =>
      rw [List.nil_append]
      unfold parseField
      dsimp only
      rw [if_neg hsepq]
      have h := takeWhile_append_all notSep [] sep rest (by simp) hns
      simp only [List.nil_append] at h
      rw [h.1, h.2]
    | cons c f2 =>
      have hcq : ¬ c = '"' := (hmem c (by simp)).2.1
      rw [List.cons_append]
      unfold parseField
      dsimp only
      rw [if_neg hcq]
      have h := takeWhile_append_all notSep (c :: f2) sep rest hall hns
      rw [List.cons_append] at h
      rw [h.1, h.2]

theorem parseRow_rowChars (fs : List (List Char)) :
    ∀ (f0 : List Char) (fuel : Nat) (rest : List Char), fs.length + 1 ≤ fuel →
    parseRow fuel (rowChars (f0 :: fs) ++ rest) =
      some ((f0 :: fs).map String.mk, rest) := by
  induction fs with
  | nil =>
    intro f0 fuel rest hfuel
    cases fuel with
    | zero => simp at hfuel
    | succ n =>
      have hstream : rowChars [f0] ++ rest = quoteField f0 ++ '\n' :: rest := by
        simp [rowChars, joinSep]
      rw [hstream, parseRow.eq_def]
      dsimp only
      rw [parseField_quoteField f0 '\n' rest (Or.inr rfl)]
      dsimp only
      rw [if_neg (by decide), if_pos rfl]
      rfl
  | cons g gs ih =>
    intro f0 fuel rest hfuel
    cases fuel with
    | zero => simp at hfuel
    | succ n =>
      have hstream : rowChars (f0 :: g :: gs) ++ rest =
          quoteField f0 ++ ',' :: (rowChars (g :: gs) ++ rest) := by
        simp [rowChars, joinSep_cons2, List.append_assoc]
      rw [hstream, parseRow.eq_def]
      dsimp only
      rw [parseField_quoteField f0 ',' _ (Or.inl rfl)]
      dsimp only
      rw [if_pos rfl]
      have hn : gs.length + 1 ≤ n := by
        simp at hfuel
        omega
      rw [ih g n rest hn]
      rfl

theorem rowChars_length_pos (fields : List (List Char)) :
    1 ≤ (rowChars fields).length := by
  simp [rowChars]

theorem parseRows_spec (rows : List (List (List Char))) :
    ∀ fuel rfuel, (∀ x ∈ rows, x ≠ []) → rows.length + 1 ≤ fuel →
      (∀ x ∈ rows, x.length + 1 ≤ rfuel) →
    parseRows fuel rfuel ((rows.map rowChars).flatten) =
      some (rows.map fun x => x.map String.mk) := by
  induction rows with
  | nil =>
    intro fuel rfuel _ hfuel _
    cases fuel with
    | zero => simp at hfuel
    | succ n =>
      rw [parseRows.eq_def]
      simp
  | cons x xs ih =>
    intro fuel rfuel hrows hfuel hrfuel
    cases fuel with
    | zero => simp at hfuel
    | succ n =>
      obtain ⟨f0, fs, rfl⟩ : ∃ f0 fs, x = f0 :: fs := by
        cases x with
        | nil => exact absurd rfl (hrows [] (by simp))
        | cons f0 fs => exact ⟨f0, fs, rfl⟩
      have hstream : (((f0 :: fs) :: xs).map rowChars).flatten =
          rowChars (f0 :: fs) ++ (xs.map rowChars).flatten := by
        simp
      have hne : rowChars (f0 :: fs) ++ (xs.map rowChars).flatten ≠ [] := by
        intro h
        have := congrArg List.length h
        simp [rowChars, List.length_append] at this
      rw [hstream, parseRows.eq_def]
      dsimp only
      rw [if_neg hne]
      have hb : fs.length + 1 ≤ rfuel := by
        have := hrfuel (f0 :: fs) (by simp)
        simp at this
        omega
      rw [parseRow_rowChars fs f0 rfuel ((xs.map rowChars).flatten) hb]
      dsimp only
      rw [ih n rfuel (fun z hz => hrows z (by simp [hz])) (by simp at hfuel; omega)
        (fun z hz => hrfuel z (by simp [hz]))]
      rfl

theorem length_le_joinSep_comma (parts : List (List Char)) :
    parts.length ≤ (joinSep [','] parts).length + 1 := by
  induction parts with
  | nil => simp [joinSep]
  | cons x xs ih =>
    cases xs with
    | nil => simp [joinSep]
    | cons y ys =>
      rw [joinSep_cons2]
      simp only [List.length_append, List.length_cons] at ih ⊢
      omega

theorem length_le_rowChars (fields : List (List Char)) :
    fields.length ≤ (rowChars fields).length := by
  have h := length_le_joinSep_comma (fields.map quoteField)
  rw [List.length_map] at h
  simp only [rowChars, List.length_append, List.length_singleton]
  omega

theorem length_flatten_rowChars (rows : List (List (List Char))) :
    rows.length ≤ ((rows.map rowChars).flatten).length := by
  induction rows with
  | nil => simp
  | cons x xs ih =>
    have h := rowChars_length_pos x
    rw [List.map_cons, List.flatten_cons, List.length_append, List.length_cons]
    omega

/-- C7: the CSV export of a non-empty list of flat records sharing one key
list, read back through the CSV reader, yields exactly the original header
(the keys) and the original rows of values, in order. -/
theorem csv_export_round_trip (r : Record) (rs : List Record)
    (hr : r ≠ [])
    (huniform : ∀ x ∈ r :: rs, x.map Prod.fst = r.map Prod.fst) :
    readCsv (to_csv (r :: rs)) =
      some (r.map Prod.fst, (r :: rs).map fun row => row.map Prod.snd) := by
  obtain ⟨p, ps, rfl⟩ : ∃ p ps, r = p :: ps := by
    cases r with
    | nil => exact absurd rfl hr
    | cons p ps => exact ⟨p, ps, rfl⟩
  have hlen_rows : ∀ x ∈ (p :: ps) :: rs, x.length = ps.length + 1 := by
    intro x hx
    have h := congrArg List.length (huniform x hx)
    simpa using h
  have hcsv : csvChars ((p :: ps) :: rs) =
      rowChars (p.1.data :: ps.map fun q => q.1.data) ++
        (((((p :: ps) :: rs).map fun row => row.map fun q => q.2.data).map
          rowChars).flatten) := by
    show rowChars ((p :: ps).map fun q => q.1.data) ++
        ((((p :: ps) :: rs).map fun row => rowChars (row.map fun q => q.2.data)).flatten) = _
    rw [List.map_map]
    rfl
  have hkb : ps.length + 1 ≤ (rowChars (p.1.data :: ps.map fun q => q.1.data)).length := by
    have h := length_le_rowChars (p.1.data :: ps.map fun q => q.1.data)
    simpa using h
  have hfb := length_flatten_rowChars
    (((p :: ps) :: rs).map fun row => row.map fun q => q.2.data)
  have hrp := rowChars_length_pos (p.1.data :: ps.map fun q => q.1.data)
  unfold readCsv to_csv
  rw [data_mk, hcsv]
  rw [parseRow_rowChars (ps.map fun q => q.1.data) p.1.data _ _ (by
    simp only [List.length_append, List.length_map]
    omega)]
  dsimp only
  rw [parseRows_spec (((p :: ps) :: rs).map fun row => row.map fun q => q.2.data) _ _
    (by
      intro x hx
      obtain ⟨row, hrow, rfl⟩ := List.mem_map.mp hx
      have h1 := hlen_rows row hrow
      intro hcontra
      have h2 := congrArg List.length hcontra
      simp [h1] at h2)
    (by
      simp only [List.length_append, List.length_map, List.length_cons]
      simp only [List.length_map, List.length_cons] at hfb
      omega)
    (by
      intro x hx
      obtain ⟨row, hrow, rfl⟩ := List.mem_map.mp hx
      have h1 := hlen_rows row hrow
      simp only [List.length_append, List.length_map, h1]
      omega)]
  dsimp only
  have hkeys : (p.1.data :: ps.map fun q => q.1.data).map String.mk =
      (p :: ps).map Prod.fst := by
    simp [List.map_map, Function.comp, mk_data]
  have hvals : (((p :: ps) :: rs).map fun row => row.map fun q => q.2.data).map
      (fun x => x.map String.mk) = ((p :: ps) :: rs).map fun row => row.map Prod.snd := by
    simp [List.map_map, Function.comp, mk_data]
  rw [hkeys, hvals]

/-- C7 witness: the theorem applied at a concrete two-record list whose
fields exercise the quoting (comma, quote-free, embedded newline). -/
theorem csv_export_round_trip_witness :
    ([("text", "a,b"), ("html", "<p>")] : Record) ≠ [] ∧
    (∀ x ∈ ([[("text", "a,b"), ("html", "<p>")], [("text", ""), ("html", "y\n")]] :
        List Record),
      x.map Prod.fst = ([("text", "a,b"), ("html", "<p>")] : Record).map Prod.fst) ∧
    readCsv (to_csv [[("text", "a,b"), ("html", "<p>")], [("text", ""), ("html", "y\n")]]) =
      some (([("text", "a,b"), ("html", "<p>")] : Record).map Prod.fst,
        ([[("text", "a,b"), ("html", "<p>")], [("text", ""), ("html", "y\n")]] :
          List Record).map fun row => row.map Prod.snd) :=
  ⟨by decide, by decide,
    csv_export_round_trip [("text", "a,b"), ("html", "<p>")]
      [[("text", ""), ("html", "y\n")]] (by decide) (by decide)⟩

end ScraplingUI
